import Mathlib

/-!
Verification of the HTML-to-Markdown conversion and mention-reconciliation
core of the teams-mcp repository (src/utils/html-to-markdown.ts) and of the
outbound send-chat-message handler (mention resolution and payload
construction).

Strings are embedded as `List Char`; positions are character indices.  The
regular expressions used by the source are deterministic (no backtracking is
observable for these patterns), so each is embedded as a character-level
scanner with the same leftmost, non-overlapping match semantics that
`String.matchAll` / `String.replace` give a global regex in JavaScript.
-/

namespace TeamsMcp

/-- The JavaScript whitespace class (`\s`, and the set trimmed by
`String.prototype.trim`): tab, LF, VT, FF, CR, space, NBSP, Ogham space mark,
the U+2000–U+200A range, LS, PS, NNBSP, MMSP, ideographic space and BOM. -/
def isJsSpace (c : Char) : Bool :=
  c == ' ' || c == '\t' || c == '\n' || c == '\r' || c == '\u000B' || c == '\u000C' ||
  c == ' ' || c == ' ' || (' ' ≤ c && c ≤ ' ') ||
  c == ' ' || c == ' ' || c == ' ' || c == ' ' ||
  c == '　' || c == '﻿'

/-- JavaScript `String.prototype.trim` on a character list. -/
def jsTrim (l : List Char) : List Char :=
  (((l.dropWhile isJsSpace).reverse).dropWhile isJsSpace).reverse

/-- Strip an expected literal from the front of the input, returning the
remainder on success. -/
def stripPfx : List Char → List Char → Option (List Char)
  | [], s => some s
  | _ :: _, [] => none
  | p :: ps, c :: cs => if p = c then stripPfx ps cs else none

theorem stripPfx_eq_some {p s r : List Char} (h : stripPfx p s = some r) :
    s = p ++ r := by
  induction p generalizing s with
  | nil => simpa [stripPfx] using h
  | cons a ps ih =>
    cases s with
    | nil => simp [stripPfx] at h
    | cons c cs =>
      by_cases hac : a = c
      · subst hac
        simp only [stripPfx, if_pos rfl] at h
        simpa using ih h
      · simp [stripPfx, hac] at h

theorem stripPfx_append (p r : List Char) : stripPfx p (p ++ r) = some r := by
  induction p with
  | nil => rfl
  | cons a ps ih => simp [stripPfx, ih]

/-- One match of the Teams mention-span regex
`/<at\s+id="(\d+)">([^<]*)<\/at>/` anchored at the head of the input:
total length consumed, the captured id digits, the captured text, and the
remaining input. -/
structure AtTagMatch where
  len : Nat
  idChars : List Char
  textChars : List Char
  rest : List Char

/-- Try to match `<at\s+id="(\d+)">([^<]*)<\/at>` at the head of `s`.
Each quantified piece of the pattern is deterministic: `\s+`, `\d+` and
`[^<]*` are all maximal runs followed by a character outside the class, so
greedy matching needs no backtracking. -/
def matchAtTag (s : List Char) : Option AtTagMatch :=
  match stripPfx "<at".data s with
  | none => none
  | some s1 =>
    let ws := s1.takeWhile isJsSpace
    if ws.isEmpty then none else
    match stripPfx "id=\"".data (s1.dropWhile isJsSpace) with
    | none => none
    | some s3 =>
      let ds := s3.takeWhile Char.isDigit
      if ds.isEmpty then none else
      match stripPfx "\">".data (s3.dropWhile Char.isDigit) with
      | none => none
      | some s5 =>
        let txt := s5.takeWhile (fun c => c != '<')
        match stripPfx "</at>".data (s5.dropWhile (fun c => c != '<')) with
        | none => none
        | some s7 =>
          some ⟨3 + ws.length + 4 + ds.length + 2 + txt.length + 5, ds, txt, s7⟩

theorem matchAtTag_rest_lt {s : List Char} {m : AtTagMatch}
    (h : matchAtTag s = some m) : m.rest.length < s.length := by
  unfold matchAtTag at h
  cases h1 : stripPfx "<at".data s with
  | none => rw [h1] at h; exact absurd h (by simp)
  | some s1 =>
    rw [h1] at h
    simp only at h
    split at h
    · exact absurd h (by simp)
    · cases h2 : stripPfx "id=\"".data (s1.dropWhile isJsSpace) with
      | none => rw [h2] at h; exact absurd h (by simp)
      | some s3 =>
        rw [h2] at h
        simp only at h
        split at h
        · exact absurd h (by simp)
        · cases h3 : stripPfx "\">".data (s3.dropWhile Char.isDigit) with
          | none => rw [h3] at h; exact absurd h (by simp)
          | some s5 =>
            rw [h3] at h
            simp only at h
            cases h4 : stripPfx "</at>".data
                (s5.dropWhile (fun c => c != '<')) with
            | none => rw [h4] at h; exact absurd h (by simp)
            | some s7 =>
              rw [h4] at h
              have hm : m.rest = s7 := by
                cases h
                rfl
              have e1 := stripPfx_eq_some h1
              have e2 := stripPfx_eq_some h2
              have e3 := stripPfx_eq_some h3
              have e4 := stripPfx_eq_some h4
              have l1 : (s1.dropWhile isJsSpace).length ≤ s1.length :=
                (List.dropWhile_suffix isJsSpace).length_le
              have l3 : (s3.dropWhile Char.isDigit).length ≤ s3.length :=
                (List.dropWhile_suffix Char.isDigit).length_le
              have l5 : (s5.dropWhile (fun c => c != '<')).length ≤ s5.length :=
                (List.dropWhile_suffix (fun c => c != '<')).length_le
              have c1 : ("<at".data).length = 3 := rfl
              have c2 : (("id=\"".data : List Char)).length = 4 := rfl
              have c3 : (("\">".data : List Char)).length = 2 := rfl
              have c4 : ("</at>".data).length = 5 := rfl
              have e1l : s.length = 3 + s1.length := by
                rw [e1, List.length_append, c1]
              have e2l : (s1.dropWhile isJsSpace).length = 4 + s3.length := by
                rw [e2, List.length_append, c2]
              have e3l : (s3.dropWhile Char.isDigit).length = 2 + s5.length := by
                rw [e3, List.length_append, c3]
              have e4l : (s5.dropWhile (fun c => c != '<')).length
                  = 5 + s7.length := by
                rw [e4, List.length_append, c4]
              rw [hm]
              omega

/-- `mentioned.user` object of a Graph `chatMessageMention` (only the `id`
field is consulted by the source). -/
structure GraphUser where
  id : Option String
deriving DecidableEq

/-- `mentioned` object of a Graph `chatMessageMention`. -/
structure MentionedIdentity where
  user : Option GraphUser
deriving DecidableEq

/-- The fields of `@microsoft/microsoft-graph-types`' `ChatMessageMention`
used by the converter: the span id, the per-span mention text and the
mentioned principal. -/
structure ChatMessageMention where
  id : Option Nat
  mentionText : Option String
  mentioned : Option MentionedIdentity
deriving DecidableEq

/-- `m.mentioned?.user?.id` under JavaScript truthiness: an absent chain or
an empty-string id is falsy and yields no user id. -/
def mentionUserId (m : ChatMessageMention) : Option String :=
  match m.mentioned with
  | some md =>
    match md.user with
    | some u =>
      match u.id with
      | some uid => if uid = "" then none else some uid
      | none => none
    | none => none
  | none => none

/-- The `atIdToUserId` lookup map built by `mergeConsecutiveMentions`:
entries with a null id or a falsy `mentioned?.user?.id` are skipped, and a
later `Map.set` for the same key overwrites an earlier one (`getLast?`). -/
def atIdToUserId (mentions : List ChatMessageMention) (key : String) :
    Option String :=
  (mentions.filterMap fun m =>
    match m.id, mentionUserId m with
    | some i, some uid => if toString i = key then some uid else none
    | _, _ => none).getLast?

/-- One scanned `<at>` tag: start offset, end offset (one past the last
character), captured id, captured text, and the user id resolved through the
lookup (`none` when the id has no map entry).  `stop` plays the role of the
source's `end` field (a Lean keyword). -/
structure AtTag where
  start : Nat
  stop : Nat
  id : String
  text : String
  userId : Option String
deriving DecidableEq

/-- Fuel-driven scanning loop for `html.matchAll(atRegex)`.  Every step
consumes at least one character, so any fuel exceeding the input length is
enough; the fuel only makes the recursion structural (kernel-reducible) and
never runs out when the wrapper below supplies it. -/
def scanAtTagsF (lookup : String → Option String) :
    Nat → Nat → List Char → List AtTag
  | 0, _, _ => []
  | fuel + 1, pos, s =>
    match matchAtTag s with
    | some m =>
      ⟨pos, pos + m.len, ⟨m.idChars⟩, ⟨m.textChars⟩, lookup ⟨m.idChars⟩⟩ ::
        scanAtTagsF lookup fuel (pos + m.len) m.rest
    | none =>
      match s with
      | [] => []
      | _ :: cs => scanAtTagsF lookup fuel (pos + 1) cs

theorem scanAtTagsF_congr (lookup : String → Option String) :
    ∀ (f1 : Nat) (f2 pos : Nat) (s : List Char), s.length < f1 →
      s.length < f2 → scanAtTagsF lookup f1 pos s = scanAtTagsF lookup f2 pos s := by
  intro f1
  induction f1 with
  | zero => intro f2 pos s h1 _; omega
  | succ g1 ih =>
    intro f2 pos s h1 h2
    cases f2 with
    | zero => omega
    | succ g2 =>
      cases hm : matchAtTag s with
      | some m =>
        have hl := matchAtTag_rest_lt hm
        simp only [scanAtTagsF, hm]
        rw [ih g2 (pos + m.len) m.rest (by omega) (by omega)]
      | none =>
        cases s with
        | nil => rfl
        | cons c cs =>
          simp only [List.length_cons] at h1 h2
          simp only [scanAtTagsF, hm]
          rw [ih g2 (pos + 1) cs (by omega) (by omega)]

/-- `html.matchAll(atRegex)`: all leftmost non-overlapping matches of the
mention-span regex, with their positions, as collected into `tags`. -/
def scanAtTags (lookup : String → Option String) (pos : Nat) (s : List Char) :
    List AtTag :=
  scanAtTagsF lookup (s.length + 1) pos s

theorem scanAtTags_matched {s : List Char} {m : AtTagMatch}
    (lookup : String → Option String) (pos : Nat) (hm : matchAtTag s = some m) :
    scanAtTags lookup pos s =
      ⟨pos, pos + m.len, ⟨m.idChars⟩, ⟨m.textChars⟩, lookup ⟨m.idChars⟩⟩ ::
        scanAtTags lookup (pos + m.len) m.rest := by
  unfold scanAtTags
  rw [scanAtTagsF_congr lookup (m.rest.length + 1) s.length (pos + m.len)
    m.rest (by omega) (matchAtTag_rest_lt hm)]
  simp only [scanAtTagsF, hm]

theorem scanAtTags_unmatched_nil (lookup : String → Option String) (pos : Nat) :
    scanAtTags lookup pos [] = [] := rfl

theorem scanAtTags_unmatched_cons {c : Char} {cs : List Char}
    (lookup : String → Option String) (pos : Nat)
    (hm : matchAtTag (c :: cs) = none) :
    scanAtTags lookup pos (c :: cs) = scanAtTags lookup (pos + 1) cs := by
  unfold scanAtTags
  simp only [List.length_cons, scanAtTagsF, hm]

/-- The grouping condition of `mergeConsecutiveMentions`: the text strictly
between the two spans is exactly `&nbsp;`, and both spans resolve to the same
truthy user id (`prev.userId && curr.userId && prev.userId === curr.userId`). -/
def sameUserAdjacent (html : List Char) (prev curr : AtTag) : Bool :=
  ((html.drop prev.stop).take (curr.start - prev.stop) == "&nbsp;".data) &&
    match prev.userId, curr.userId with
    | some pu, some cu => !(pu == "") && !(cu == "") && pu == cu
    | _, _ => false

/-- The grouping loop: `cur` is the group under construction (in reverse),
`prev` the previously scanned tag (always the head of `cur`). -/
def groupTagsAux (html : List Char) (cur : List AtTag) (prev : AtTag) :
    List AtTag → List (List AtTag)
  | [] => [cur.reverse]
  | c :: rest =>
    if sameUserAdjacent html prev c then
      groupTagsAux html (c :: cur) c rest
    else
      cur.reverse :: groupTagsAux html [c] c rest

/-- Partition the scanned tags into the runs built by the source's grouping
loop (`groups` in `mergeConsecutiveMentions`). -/
def groupTags (html : List Char) : List AtTag → List (List AtTag)
  | [] => []
  | t :: rest => groupTagsAux html [t] t rest

/-- Last element of the nonempty list `a :: l`. -/
def groupLast (a : AtTag) (l : List AtTag) : AtTag := l.getLast?.getD a

/-- The single merged span emitted for a multi-tag group: the first tag's id
and the space-joined concatenation of the member texts
(`<at id="${group[0].id}">${fullName}</at>`). -/
def mergedSpanChars (t : AtTag) (ts : List AtTag) : List Char :=
  "<at id=\"".data ++ t.id.data ++ "\">".data ++
    (String.intercalate " " ((t :: ts).map AtTag.text)).data ++ "</at>".data

/-- The rebuild loop of `mergeConsecutiveMentions`: groups of at most one tag
are skipped (leaving the original text in place); a group of two or more tags
has its full character range `[start of first, stop of last)` replaced by the
merged span; the trailing substring after the last replaced group is
appended. -/
def rebuildGroups (html : List Char) : List (List AtTag) → Nat → List Char
  | [], lastEnd => html.drop lastEnd
  | [] :: rest, lastEnd => rebuildGroups html rest lastEnd
  | [_] :: rest, lastEnd => rebuildGroups html rest lastEnd
  | (t :: t2 :: ts) :: rest, lastEnd =>
    (html.drop lastEnd).take (t.start - lastEnd) ++ mergedSpanChars t (t2 :: ts)
      ++ rebuildGroups html rest (groupLast t2 ts).stop

/-- `mergeConsecutiveMentions(html, mentions)` from
src/utils/html-to-markdown.ts. -/
def mergeConsecutiveMentions (html : List Char)
    (mentions : List ChatMessageMention) : List Char :=
  if mentions.isEmpty then html
  else
    let tags := scanAtTags (atIdToUserId mentions) 0 html
    if tags.length < 2 then html
    else rebuildGroups html (groupTags html tags) 0

/-- The eight fixed characters of the separator-repair pattern
`/<\/at>(<at\s)/`. -/
def adjPat : List Char := "</at><at".data

theorem adjPat_eq : adjPat = ['<', '/', 'a', 't', '>', '<', 'a', 't'] := rfl

/-- Match `/<\/at>(<at\s)/` at the head of the input: eight fixed characters
followed by one JS whitespace character (the `\s` inside the capture group);
returns that whitespace character and the remaining input. -/
def matchAdj : List Char → Option (Char × List Char)
  | c0 :: c1 :: c2 :: c3 :: c4 :: c5 :: c6 :: c7 :: w :: rest =>
    if c0 = '<' ∧ c1 = '/' ∧ c2 = 'a' ∧ c3 = 't' ∧ c4 = '>' ∧
        c5 = '<' ∧ c6 = 'a' ∧ c7 = 't' ∧ isJsSpace w = true then
      some (w, rest)
    else none
  | _ => none

theorem matchAdj_some {s : List Char} {w : Char} {rest : List Char}
    (h : matchAdj s = some (w, rest)) :
    s = adjPat ++ w :: rest ∧ isJsSpace w = true := by
  unfold matchAdj at h
  split at h
  · split at h
    · rename_i hc
      obtain ⟨rfl, rfl, rfl, rfl, rfl, rfl, rfl, rfl, hw⟩ := hc
      obtain ⟨rfl, rfl⟩ : _ ∧ _ := by
        have := Option.some.inj h
        exact ⟨congrArg Prod.fst this, congrArg Prod.snd this⟩
      exact ⟨rfl, hw⟩
    · exact absurd h (by simp)
  · exact absurd h (by simp)

theorem matchAdj_of_shape (w : Char) (rest : List Char)
    (hw : isJsSpace w = true) :
    matchAdj (adjPat ++ w :: rest) = some (w, rest) := by
  rw [adjPat_eq]
  simp [matchAdj, hw]

theorem matchAdj_rest_lt {s : List Char} {w : Char} {rest : List Char}
    (h : matchAdj s = some (w, rest)) : rest.length < s.length := by
  rcases matchAdj_some h with ⟨rfl, -⟩
  simp [adjPat_eq]
  omega

/-- Fuel-driven loop of the separator-repair replacement; every step consumes
at least one character, so the wrapper's fuel (the input length) never runs
out. -/
def fixAdjacentAtF : Nat → List Char → List Char
  | _, [] => []
  | 0, s => s
  | fuel + 1, c :: cs =>
    match matchAdj (c :: cs) with
    | some (w, rest) => "</at> <at".data ++ w :: fixAdjacentAtF fuel rest
    | none => c :: fixAdjacentAtF fuel cs

theorem fixAdjacentAtF_congr :
    ∀ (f1 f2 : Nat) (s : List Char), s.length ≤ f1 → s.length ≤ f2 →
      fixAdjacentAtF f1 s = fixAdjacentAtF f2 s := by
  intro f1
  induction f1 with
  | zero =>
    intro f2 s h1 _
    have : s = [] := List.eq_nil_of_length_eq_zero (by omega)
    subst this
    cases f2 <;> rfl
  | succ g1 ih =>
    intro f2 s h1 h2
    cases s with
    | nil => cases f2 <;> rfl
    | cons c cs =>
      cases f2 with
      | zero => simp at h2
      | succ g2 =>
        simp only [List.length_cons] at h1 h2
        cases hm : matchAdj (c :: cs) with
        | some p =>
          obtain ⟨w, rest⟩ := p
          have hl := matchAdj_rest_lt hm
          simp only [List.length_cons] at hl
          simp only [fixAdjacentAtF, hm]
          rw [ih g2 rest (by omega) (by omega)]
        | none =>
          simp only [fixAdjacentAtF, hm]
          rw [ih g2 cs (by omega) (by omega)]

/-- `preprocessed.replace(/<\/at>(<at\s)/g, "</at> $1")`: global leftmost
replacement, inserting one space between an `</at>` that is immediately
followed by `<at` plus whitespace; scanning resumes after the whole match. -/
def fixAdjacentAt (s : List Char) : List Char := fixAdjacentAtF s.length s

/-- ASCII-case-insensitive character comparison, as the `i` flag canonicalises
the (all-ASCII) literal parts of the attachment regex. -/
def lowerEq (a b : Char) : Bool := a.toLower == b.toLower

/-- Strip an expected literal case-insensitively. -/
def iStrip : List Char → List Char → Option (List Char)
  | [], s => some s
  | _ :: _, [] => none
  | p :: ps, c :: cs => if lowerEq p c then iStrip ps cs else none

theorem iStrip_length {p s r : List Char} (h : iStrip p s = some r) :
    r.length + p.length = s.length := by
  induction p generalizing s with
  | nil =>
    simp only [iStrip, Option.some.injEq] at h
    simp [h]
  | cons a ps ih =>
    cases s with
    | nil => simp [iStrip] at h
    | cons c cs =>
      by_cases hac : lowerEq a c
      · simp only [iStrip, if_pos hac] at h
        have := ih h
        simp only [List.length_cons]
        omega
      · simp [iStrip, hac] at h

/-- The optional group `(?:\s+id="([^"]*)")?` of the attachment regex:
at least one whitespace character, the literal `id="`, a maximal run of
non-quote characters (the capture), and the closing quote. -/
def matchAttachId (s1 : List Char) : Option (List Char × List Char) :=
  if (s1.takeWhile isJsSpace).isEmpty then none else
  match iStrip "id=\"".data (s1.dropWhile isJsSpace) with
  | none => none
  | some s2 =>
    match s2.dropWhile (fun c => c != '"') with
    | [] => none
    | q :: s3 =>
      if q = '"' then some (s2.takeWhile (fun c => c != '"'), s3) else none

theorem matchAttachId_length {s1 cap s3 : List Char}
    (h : matchAttachId s1 = some (cap, s3)) : s3.length ≤ s1.length := by
  unfold matchAttachId at h
  split at h
  · exact absurd h (by simp)
  · cases h2 : iStrip "id=\"".data (s1.dropWhile isJsSpace) with
    | none => rw [h2] at h; exact absurd h (by simp)
    | some s2 =>
      rw [h2] at h
      simp only at h
      cases heq : s2.dropWhile (fun c => c != '"') with
      | nil => rw [heq] at h; exact absurd h (by simp)
      | cons q s3' =>
        rw [heq] at h
        simp only at h
        split at h
        · cases h
          have l2 : s2.length + 4 = (s1.dropWhile isJsSpace).length := by
            have := iStrip_length h2
            have c4 : (("id=\"".data : List Char)).length = 4 := rfl
            omega
          have l1 : (s1.dropWhile isJsSpace).length ≤ s1.length :=
            (List.dropWhile_suffix isJsSpace).length_le
          have l3 : (s2.dropWhile (fun c => c != '"')).length ≤ s2.length :=
            (List.dropWhile_suffix (fun c => c != '"')).length_le
          rw [heq] at l3
          simp only [List.length_cons] at l3
          omega
        · exact absurd h (by simp)

/-- Match `/<attachment(?:\s+id="([^"]*)")?><\/attachment>/i` at the head of
the input.  The greedy optional group is tried first; if the group or the
required `></attachment>` after it fails, the regex backtracks to the
group-skipped alternative.  Returns the captured id (if the group matched)
and the remaining input. -/
def matchAttach (s : List Char) : Option (Option (List Char) × List Char) :=
  match iStrip "<attachment".data s with
  | none => none
  | some s1 =>
    match matchAttachId s1 with
    | some (cap, s2) =>
      match iStrip "></attachment>".data s2 with
      | some rest => some (some cap, rest)
      | none =>
        match iStrip "></attachment>".data s1 with
        | some rest => some (none, rest)
        | none => none
    | none =>
      match iStrip "></attachment>".data s1 with
      | some rest => some (none, rest)
      | none => none

theorem matchAttach_rest_lt {s : List Char} {idc : Option (List Char)}
    {rest : List Char} (h : matchAttach s = some (idc, rest)) :
    rest.length < s.length := by
  unfold matchAttach at h
  cases h1 : iStrip "<attachment".data s with
  | none => rw [h1] at h; exact absurd h (by simp)
  | some s1 =>
    rw [h1] at h
    have l1 : s1.length + 11 = s.length := by
      have := iStrip_length h1
      have c11 : (("<attachment".data : List Char)).length = 11 := rfl
      omega
    have c14 : (("></attachment>".data : List Char)).length = 14 := rfl
    simp only at h
    have hrest : rest.length ≤ s1.length := by
      split at h
      · rename_i cap s2 h2
        split at h
        · rename_i r h3
          cases h
          have := iStrip_length h3
          have := matchAttachId_length h2
          omega
        · split at h
          · rename_i r h4
            cases h
            have := iStrip_length h4
            omega
          · exact absurd h (by simp)
      · split at h
        · rename_i r h4
          cases h
          have := iStrip_length h4
          omega
        · exact absurd h (by simp)
    omega

/-- The replacement callback of the attachment rewrite: a captured truthy
(nonempty) id produces `<span data-attachment="id">{attachment:id}</span>`,
an absent or empty capture produces `<span data-attachment>{attachment}</span>`. -/
def attachSpan (idc : List Char) : List Char :=
  "<span data-attachment=\"".data ++ idc ++ "\">\x7battachment:".data ++ idc ++
    "\x7d</span>".data

def attachSpanNoId : List Char := "<span data-attachment>\x7battachment\x7d</span>".data

def attachReplacement : Option (List Char) → List Char
  | some idc => if idc.isEmpty then attachSpanNoId else attachSpan idc
  | none => attachSpanNoId

/-- Fuel-driven loop of the attachment rewrite; every step consumes at least
one character, so the wrapper's fuel (the input length) never runs out. -/
def fixAttachmentsF : Nat → List Char → List Char
  | _, [] => []
  | 0, s => s
  | fuel + 1, c :: cs =>
    match matchAttach (c :: cs) with
    | some (idc, rest) => attachReplacement idc ++ fixAttachmentsF fuel rest
    | none => c :: fixAttachmentsF fuel cs

theorem fixAttachmentsF_congr :
    ∀ (f1 f2 : Nat) (s : List Char), s.length ≤ f1 → s.length ≤ f2 →
      fixAttachmentsF f1 s = fixAttachmentsF f2 s := by
  intro f1
  induction f1 with
  | zero =>
    intro f2 s h1 _
    have : s = [] := List.eq_nil_of_length_eq_zero (by omega)
    subst this
    cases f2 <;> rfl
  | succ g1 ih =>
    intro f2 s h1 h2
    cases s with
    | nil => cases f2 <;> rfl
    | cons c cs =>
      cases f2 with
      | zero => simp at h2
      | succ g2 =>
        simp only [List.length_cons] at h1 h2
        cases hm : matchAttach (c :: cs) with
        | some p =>
          obtain ⟨idc, rest⟩ := p
          have hl := matchAttach_rest_lt hm
          simp only [List.length_cons] at hl
          simp only [fixAttachmentsF, hm]
          rw [ih g2 rest (by omega) (by omega)]
        | none =>
          simp only [fixAttachmentsF, hm]
          rw [ih g2 cs (by omega) (by omega)]

/-- The global attachment-placeholder rewrite of `htmlToMarkdown`
(`preprocessed.replace(/<attachment(?:\s+id="([^"]*)")?><\/attachment>/gi, …)`). -/
def fixAttachments (s : List Char) : List Char := fixAttachmentsF s.length s

/-- Post-Turndown normalisation `.replace(/ /g, " ")`. -/
def nbspToSpace (c : Char) : Char := if c = ' ' then ' ' else c

/-- `mentions ? mergeConsecutiveMentions(html, mentions) : html` — an absent
(null/undefined) mentions argument skips the merge pass; a present (even
empty) array runs it. -/
def preMerge (html : List Char) :
    Option (List ChatMessageMention) → List Char
  | some ms => mergeConsecutiveMentions html ms
  | none => html

/-- `htmlToMarkdown(html, mentions)` from src/utils/html-to-markdown.ts.
The third-party Turndown engine (the `turndownService.turndown` call, an
external dependency, not part of the repository sources) is abstracted as the
function argument `turndown`; everything else — the empty/whitespace guard,
the three preprocessing rewrites, the NBSP normalisation and the final trim —
is embedded from the source. -/
def htmlToMarkdown (turndown : List Char → List Char) (html : List Char)
    (mentions : Option (List ChatMessageMention)) : List Char :=
  if jsTrim html = [] then []
  else
    jsTrim ((turndown (fixAttachments (fixAdjacentAt
      (preMerge html mentions)))).map nbspToSpace)

/-- A JavaScript `string | null | undefined` value. -/
inductive NullableStr where
  | nullV : NullableStr
  | undefV : NullableStr
  | strV : List Char → NullableStr
deriving DecidableEq

/-- The `format` parameter of `formatMessageContent`. -/
inductive ContentFormat where
  | raw : ContentFormat
  | markdown : ContentFormat
deriving DecidableEq

/-- `formatMessageContent(content, format, mentions)` from
src/utils/html-to-markdown.ts: `content == null` (null or undefined) is
returned unchanged, `"raw"` returns the content unchanged, `"markdown"`
delegates to `htmlToMarkdown`. -/
def formatMessageContent (turndown : List Char → List Char)
    (content : NullableStr) (format : ContentFormat)
    (mentions : Option (List ChatMessageMention)) : NullableStr :=
  match content with
  | .nullV => .nullV
  | .undefV => .undefV
  | .strV s =>
    match format with
    | .raw => .strV s
    | .markdown => .strV (htmlToMarkdown turndown s mentions)

/-! ## The custom Turndown rules at node level

The three `turndownService.addRule` calls register filter/replacement pairs
over DOM nodes.  Nodes are embedded as a small tree; `nodeName` is the
DOM-uppercased element name, `#text` for text nodes. -/

/-- A parsed DOM-like node: a text node, or an element with a name, an
attribute list (name, optional value) and children. -/
inductive HtmlNode where
  | text : List Char → HtmlNode
  | elem : List Char → List (List Char × Option (List Char)) → List HtmlNode →
      HtmlNode

/-- ASCII uppercase, as the DOM applies to HTML element names in `nodeName`. -/
def asciiUpper (c : Char) : Char :=
  if 'a' ≤ c ∧ c ≤ 'z' then Char.ofNat (c.toNat - 32) else c

/-- `node.nodeName`. -/
def nodeName : HtmlNode → List Char
  | .text _ => "#text".data
  | .elem nm _ _ => nm.map asciiUpper

/-- `node.hasAttribute(name)`. -/
def hasAttr (n : HtmlNode) (name : List Char) : Bool :=
  match n with
  | .text _ => false
  | .elem _ attrs _ => attrs.any (fun a => a.fst == name)

mutual
/-- `node.textContent`: concatenation of all descendant text. -/
def textContent : HtmlNode → List Char
  | .text s => s
  | .elem _ _ cs => textContentList cs

def textContentList : List HtmlNode → List Char
  | [] => []
  | n :: ns => textContent n ++ textContentList ns
end

/-- Filter of the `teamsMention` rule: `node.nodeName === "AT"`. -/
def teamsMentionFilter (n : HtmlNode) : Bool :=
  nodeName n == "AT".data

/-- Filter of the `teamsAttachment` rule: a `SPAN` carrying a
`data-attachment` attribute. -/
def teamsAttachmentFilter (n : HtmlNode) : Bool :=
  nodeName n == "SPAN".data && hasAttr n "data-attachment".data

/-- Filter of the `teamsSystemEvent` rule: element name
`SYSTEMEVENTMESSAGE`, or trimmed text content exactly equal to the sentinel
`systemEventMessage/`. -/
def teamsSystemEventFilter (n : HtmlNode) : Bool :=
  nodeName n == "SYSTEMEVENTMESSAGE".data ||
    jsTrim (textContent n) == "systemEventMessage/".data

mutual
/-- Modelled from the spec: the rule dispatch of the third-party Turndown
engine (§4.2 step 4), which is not part of the repository sources.  Rules
added later take precedence, so the dispatch order is `teamsSystemEvent`,
`teamsAttachment`, `teamsMention`; the three replacement callbacks
(`() => ""`, `content => content`, `content => "@" + content`) are the
repository's own.  The generic rule set is modelled only by its
prose-preserving skeleton: an unmatched element renders its children's
content (block formatting is elided, which the claims settled on this model
do not depend on). -/
def renderNode : HtmlNode → List Char
  | .text s => s
  | .elem nm attrs cs =>
    if teamsSystemEventFilter (.elem nm attrs cs) then []
    else if teamsAttachmentFilter (.elem nm attrs cs) then renderList cs
    else if teamsMentionFilter (.elem nm attrs cs) then '@' :: renderList cs
    else renderList cs

def renderList : List HtmlNode → List Char
  | [] => []
  | n :: ns => renderNode n ++ renderList ns
end

/-! ## The outbound send path (`send_chat_message` handler)

The handler lives in src/tools/chats.ts (provided here among the unnamed
source files).  The Graph client and the Markdown renderer are external
collaborators and appear as function arguments. -/

/-- One caller-supplied entry of the `mentions` tool argument:
`{mention, userId}`. -/
structure MentionArg where
  mention : String
  userId : String
deriving DecidableEq

/-- One resolved mapping `{mention, userId, displayName}`. -/
structure MentionMapping where
  mention : String
  userId : String
  displayName : String
deriving DecidableEq

/-- One entry of the outbound `mentions` payload array
`{id, mentionText, mentioned: {user: {id}}}`. -/
structure OutMention where
  id : Nat
  mentionText : String
  mentionedUserId : String
deriving DecidableEq

/-- The `format` tool argument. -/
inductive MsgFormat where
  | text : MsgFormat
  | markdown : MsgFormat
deriving DecidableEq

/-- The declared `body.contentType` of the outbound payload. -/
inductive BodyContentType where
  | text : BodyContentType
  | html : BodyContentType
deriving DecidableEq

/-- `importance` tool argument. -/
inductive Importance where
  | normal : Importance
  | high : Importance
  | urgent : Importance
deriving DecidableEq

/-- The `body` object of the outbound message payload. -/
structure MessageBody where
  content : List Char
  contentType : BodyContentType
deriving DecidableEq

/-- The outbound message payload: `mentions` is attached only when the final
mentions array is nonempty. -/
structure MessagePayload where
  body : MessageBody
  importance : Importance
  mentions : Option (List OutMention)
deriving DecidableEq

/-- Arguments of the `send_chat_message` tool (chatId omitted — it only
routes the request). -/
structure SendMessageArgs where
  message : List Char
  importance : Importance
  format : MsgFormat
  mentions : Option (List MentionArg)
deriving DecidableEq

/-- The per-mention try/catch of the handler: a successful directory lookup
uses `userResponse.displayName || mention.mention` (JS truthiness: an absent
or empty display name falls back to the mention text); a failed lookup is
caught, logged as a warning, and falls back to the mention text.  Returns
the mapping and the optional warning line. -/
def resolveMentionMapping {ε : Type} (lookup : String → Except ε (Option String))
    (m : MentionArg) : MentionMapping × Option String :=
  match lookup m.userId with
  | .ok dn =>
    ({ mention := m.mention, userId := m.userId,
       displayName :=
         match dn with
         | some d => if d = "" then m.mention else d
         | none => m.mention }, none)
  | .error _ =>
    ({ mention := m.mention, userId := m.userId, displayName := m.mention },
     some ("Could not resolve user " ++ m.userId ++
       ", using mention text as display name"))

/-- The resolution loop over all caller-supplied mentions: every entry
produces a mapping (both the try and the catch branch push), and warnings
are collected. -/
def resolveMentionMappings {ε : Type}
    (lookup : String → Except ε (Option String)) :
    List MentionArg → List MentionMapping × List String
  | [] => ([], [])
  | m :: rest =>
    let r := resolveMentionMapping lookup m
    let rs := resolveMentionMappings lookup rest
    (r.fst :: rs.fst, r.snd.toList ++ rs.snd)

/-- Replace every occurrence of `tag` in `s` by `repl` (leftmost,
non-overlapping), with explicit fuel for termination; the fuel is set to the
input length, an upper bound on the number of scan steps. -/
def replaceAllSub (tag repl : List Char) : Nat → List Char → List Char
  | _, [] => []
  | 0, s => s
  | fuel + 1, c :: cs =>
    match stripPfx tag (c :: cs) with
    | some rest => repl ++ replaceAllSub tag repl fuel rest
    | none => c :: replaceAllSub tag repl fuel cs

/-- Does `tag` occur in `s`? -/
def occursSub (tag : List Char) : List Char → Bool
  | [] => (stripPfx tag []).isSome
  | c :: cs => (stripPfx tag (c :: cs)).isSome || occursSub tag cs

/-- The `<at id="n">name</at>` span spliced for an injected mention. -/
def injectedAtSpan (n : Nat) (displayName : String) : List Char :=
  "<at id=\"".data ++ (toString n).data ++ "\">".data ++ displayName.data ++
    "</at>".data

/-- Modelled from the spec: `processMentionsInHtml` (src/utils/users.ts,
whose implementation is not among the provided sources — only its caller
is).  Per §4.4 step 2: for each mapping in order, occurrences of the mention
tag in the content are replaced by a mention span carrying a fresh
sequential integer id starting at 0, and a corresponding
`{id, mentionText: displayName, mentioned: {user: {id}}}` entry is appended
to the output mentions array. -/
def processMentionsInHtml (content : List Char)
    (mappings : List MentionMapping) : List Char × List OutMention :=
  go content mappings 0
where
  go : List Char → List MentionMapping → Nat → List Char × List OutMention
    | content, [], _ => (content, [])
    | content, m :: rest, n =>
      let tag := m.mention.data
      if occursSub tag content then
        let content' := replaceAllSub tag (injectedAtSpan n m.displayName)
          content.length content
        let r := go content' rest (n + 1)
        (r.fst, ⟨n, m.displayName, m.userId⟩ :: r.snd)
      else
        go content rest n

/-- The body of the `send_chat_message` handler up to the Graph POST: format
dispatch (`markdownToHtml` for markdown, pass-through for text), mention
resolution with per-entry fallback, mention injection, the forced `html`
content type whenever any mention mapping exists, and payload assembly
(`mentions` attached only when nonempty).  Returns the payload and the
collected warning lines. -/
def sendChatMessagePayload {ε : Type} (markdownToHtml : List Char → List Char)
    (lookup : String → Except ε (Option String)) (args : SendMessageArgs) :
    MessagePayload × List String :=
  let c0 : List Char × BodyContentType :=
    match args.format with
    | .markdown => (markdownToHtml args.message, .html)
    | .text => (args.message, .text)
  let rs := resolveMentionMappings lookup (args.mentions.getD [])
  let mentionMappings := rs.fst
  let pm : List Char × List OutMention :=
    if mentionMappings.isEmpty then (c0.fst, [])
    else processMentionsInHtml c0.fst mentionMappings
  let contentType :=
    if mentionMappings.isEmpty then c0.snd else BodyContentType.html
  ({ body := { content := pm.fst, contentType := contentType },
     importance := args.importance,
     mentions := if pm.snd.isEmpty then none else some pm.snd }, rs.snd)

/-! ## Helper lemmas about `jsTrim` -/

theorem dropWhile_head_not {p : Char → Bool} :
    ∀ {l : List Char} {c : Char}, (l.dropWhile p).head? = some c → p c = false := by
  intro l
  induction l with
  | nil => intro c h; simp [List.dropWhile] at h
  | cons a as ih =>
    intro c h
    by_cases hp : p a
    · rw [List.dropWhile_cons_of_pos hp] at h
      exact ih h
    · rw [List.dropWhile_cons_of_neg hp] at h
      simp only [List.head?_cons, Option.some.injEq] at h
      rw [← h]
      exact Bool.eq_false_iff.mpr hp

theorem jsTrim_decomp (l : List Char) :
    ∃ t, l.dropWhile isJsSpace = jsTrim l ++ t := by
  obtain ⟨u, hu⟩ := List.dropWhile_suffix (l := (l.dropWhile isJsSpace).reverse)
    isJsSpace
  refine ⟨u.reverse, ?_⟩
  have : (l.dropWhile isJsSpace).reverse.reverse
      = (u ++ (l.dropWhile isJsSpace).reverse.dropWhile isJsSpace).reverse := by
    rw [hu]
  rw [List.reverse_reverse] at this
  rw [this, List.reverse_append]
  rfl

theorem jsTrim_head_not {l : List Char} {c : Char}
    (h : (jsTrim l).head? = some c) : isJsSpace c = false := by
  obtain ⟨t, ht⟩ := jsTrim_decomp l
  apply dropWhile_head_not (l := l)
  rw [ht]
  cases hj : jsTrim l with
  | nil => rw [hj] at h; simp at h
  | cons d ds =>
    rw [hj] at h
    simp only [List.head?_cons, Option.some.injEq] at h
    simp [h]

theorem jsTrim_getLast_not {l : List Char} {c : Char}
    (h : (jsTrim l).getLast? = some c) : isJsSpace c = false := by
  unfold jsTrim at h
  rw [List.getLast?_reverse] at h
  exact dropWhile_head_not h

theorem mem_jsTrim {l : List Char} {c : Char} (h : c ∈ jsTrim l) : c ∈ l := by
  unfold jsTrim at h
  rw [List.mem_reverse] at h
  have h2 := (List.dropWhile_sublist (l := (l.dropWhile isJsSpace).reverse)
    isJsSpace).subset h
  rw [List.mem_reverse] at h2
  exact (List.dropWhile_sublist (l := l) isJsSpace).subset h2

/-- C7: `formatMessageContent` preserves nullability and is the identity in
raw mode: null and undefined content are returned as that same value for
every format and mentions argument, and raw mode returns string content
unchanged, with no trimming or entity changes. -/
theorem C7_formatMessageContent_nullability_raw_identity
    (turndown : List Char → List Char) (format : ContentFormat)
    (mentions : Option (List ChatMessageMention)) (s : List Char) :
    formatMessageContent turndown .nullV format mentions = .nullV ∧
    formatMessageContent turndown .undefV format mentions = .undefV ∧
    formatMessageContent turndown (.strV s) .raw mentions = .strV s :=
  ⟨rfl, rfl, rfl⟩

/-- C8: the conversion layer is total.  In this shallow embedding every
fallible operation would be rendered in `Option`/`Except`; the embedded
`htmlToMarkdown` and `formatMessageContent` need no such wrapper — for every
string input (however malformed as HTML) and every mentions list they are
defined and return a plain result, and string content never becomes
null/undefined.  Any exception a caller observes must therefore originate in
a collaborator outside the conversion layer. -/
theorem C8_conversion_layer_total (turndown : List Char → List Char)
    (html : List Char) (mentions : Option (List ChatMessageMention))
    (content : List Char) (format : ContentFormat) :
    (∃ md, htmlToMarkdown turndown html mentions = md) ∧
    (∃ r, formatMessageContent turndown (.strV content) format mentions
        = .strV r) := by
  refine ⟨⟨_, rfl⟩, ?_⟩
  cases format with
  | raw => exact ⟨content, rfl⟩
  | markdown => exact ⟨htmlToMarkdown turndown content mentions, rfl⟩

/-- C6: `htmlToMarkdown` returns `""` on empty or all-whitespace input; on
all other input it returns the Turndown result with every non-breaking space
replaced by an ordinary space and the whole string trimmed — so the output
never starts or ends with whitespace and contains no U+00A0 character. -/
theorem C6_htmlToMarkdown_output_normalized
    (turndown : List Char → List Char) (html : List Char)
    (mentions : Option (List ChatMessageMention)) :
    (jsTrim html = [] → htmlToMarkdown turndown html mentions = []) ∧
    (jsTrim html ≠ [] → htmlToMarkdown turndown html mentions =
      jsTrim ((turndown (fixAttachments (fixAdjacentAt
        (preMerge html mentions)))).map nbspToSpace)) ∧
    (∀ c, (htmlToMarkdown turndown html mentions).head? = some c →
      isJsSpace c = false) ∧
    (∀ c, (htmlToMarkdown turndown html mentions).getLast? = some c →
      isJsSpace c = false) ∧
    (∀ c ∈ htmlToMarkdown turndown html mentions, c ≠ ' ') := by
  refine ⟨fun h => by simp [htmlToMarkdown, h], fun h => by
    simp [htmlToMarkdown, h], ?_, ?_, ?_⟩
  · intro c hc
    unfold htmlToMarkdown at hc
    split at hc
    · simp at hc
    · exact jsTrim_head_not hc
  · intro c hc
    unfold htmlToMarkdown at hc
    split at hc
    · simp at hc
    · exact jsTrim_getLast_not hc
  · intro c hc
    unfold htmlToMarkdown at hc
    split at hc
    · simp at hc
    · have hm := mem_jsTrim hc
      obtain ⟨y, -, hy⟩ := List.mem_map.mp hm
      intro hcn
      rw [hcn] at hy
      unfold nbspToSpace at hy
      split at hy
      · exact absurd hy (by decide)
      · exact absurd hy (by assumption)

/-- C6 witness: on the concrete all-whitespace input `"   "` the conversion
returns the empty string. -/
theorem C6_witness :
    jsTrim "   ".data = [] ∧
    htmlToMarkdown (fun s => s) "   ".data none = [] :=
  ⟨by decide,
    (C6_htmlToMarkdown_output_normalized (fun s => s) "   ".data none).1
      (by decide)⟩

/-- C4: the system-event removal fires exactly on element name
`SYSTEMEVENTMESSAGE` or on trimmed text content equal to the sentinel
`systemEventMessage/` — a matching element renders as the empty string —
while ordinary prose that merely contains the word `systemEventMessage`
inside its visible text neither triggers the filter nor is dropped: the
concrete paragraph is preserved in full. -/
theorem C4_system_event_removal
    (nm : List Char) (attrs : List (List Char × Option (List Char)))
    (children : List HtmlNode) :
    (teamsSystemEventFilter (.elem nm attrs children) = true ↔
      nm.map asciiUpper = "SYSTEMEVENTMESSAGE".data ∨
      jsTrim (textContentList children) = "systemEventMessage/".data) ∧
    (nm.map asciiUpper = "SYSTEMEVENTMESSAGE".data →
      renderNode (.elem nm attrs children) = []) ∧
    renderNode (.elem "systemEventMessage".data [] []) = [] ∧
    ("systemEventMessage".data <:+:
      "the systemEventMessage tag is used for system events".data) ∧
    renderNode (.elem "p".data []
        [.text "the systemEventMessage tag is used for system events".data])
      = "the systemEventMessage tag is used for system events".data := by
  refine ⟨?_, ?_, by decide, by decide, by decide⟩
  · simp [teamsSystemEventFilter, nodeName, textContent]
  · intro h
    unfold renderNode
    rw [if_pos ?_]
    unfold teamsSystemEventFilter
    rw [Bool.or_eq_true, beq_iff_eq]
    exact Or.inl (by simpa [nodeName] using h)

/-- C4 witness: the filter hypothesis discharged at the concrete marker
element. -/
theorem C4_witness :
    ("systemEventMessage".data.map asciiUpper = "SYSTEMEVENTMESSAGE".data) ∧
    renderNode (.elem "systemEventMessage".data [] []) = [] :=
  ⟨by decide,
    (C4_system_event_removal "systemEventMessage".data [] []).2.1 (by decide)⟩

theorem resolveMentionMappings_length {ε : Type}
    (lookup : String → Except ε (Option String)) :
    ∀ l : List MentionArg,
      ((resolveMentionMappings lookup l).fst).length = l.length := by
  intro l
  induction l with
  | nil => rfl
  | cons m rest ih => simp [resolveMentionMappings, ih]

/-- C9: whenever any mention is injected in the send path, the declared
content type of the outbound body is `html` — both when the payload carries
a mentions array, and whenever the caller supplied a nonempty mentions
argument, even with the plain-text format requested. -/
theorem C9_mentions_force_html_content_type {ε : Type}
    (markdownToHtml : List Char → List Char)
    (lookup : String → Except ε (Option String)) (args : SendMessageArgs) :
    ((sendChatMessagePayload markdownToHtml lookup args).fst.mentions ≠ none →
      (sendChatMessagePayload markdownToHtml lookup args).fst.body.contentType
        = .html) ∧
    (∀ ms, args.mentions = some ms → ms ≠ [] →
      (sendChatMessagePayload markdownToHtml lookup args).fst.body.contentType
        = .html) := by
  by_cases he : ((resolveMentionMappings lookup (args.mentions.getD [])).fst).isEmpty
  · constructor
    · intro hne
      exfalso
      apply hne
      simp [sendChatMessagePayload, he]
    · intro ms hms hne
      exfalso
      have hlen := resolveMentionMappings_length lookup (args.mentions.getD [])
      rw [List.isEmpty_iff] at he
      rw [he] at hlen
      rw [hms] at hlen
      simp only [Option.getD_some, List.length_nil] at hlen
      exact hne (List.eq_nil_of_length_eq_zero hlen.symm)
  · constructor
    · intro _
      simp [sendChatMessagePayload, he]
    · intro ms _ _
      simp [sendChatMessagePayload, he]

/-- C9 witness: a concrete plain-text send with one mention (whose directory
lookup even fails) is declared `html`. -/
theorem C9_witness :
    (⟨"hi @john".data, .normal, .text, some [⟨"@john", "u1"⟩]⟩ :
        SendMessageArgs).mentions = some [⟨"@john", "u1"⟩] ∧
    ([(⟨"@john", "u1"⟩ : MentionArg)] ≠ []) ∧
    (sendChatMessagePayload (ε := Unit) (fun s => s) (fun _ => .error ())
        ⟨"hi @john".data, .normal, .text,
          some [⟨"@john", "u1"⟩]⟩).fst.body.contentType = .html :=
  ⟨rfl, by decide,
    (C9_mentions_force_html_content_type (fun s => s) (fun _ => .error ())
        ⟨"hi @john".data, .normal, .text, some [⟨"@john", "u1"⟩]⟩).2
      [⟨"@john", "u1"⟩] rfl (by decide)⟩

/-- C10: a failed display-name lookup never drops the mapping and never
aborts the send: every caller-supplied mention yields exactly one mapping,
in order, with the mention tag itself as the display name when the lookup
failed; the failure surfaces only as a warning line, and the handler's
result is the payload plus those warnings. -/
theorem C10_lookup_failure_falls_back {ε : Type}
    (lookup : String → Except ε (Option String)) (margs : List MentionArg) :
    List.Forall₂ (fun (m : MentionArg) (mp : MentionMapping) =>
        mp.mention = m.mention ∧ mp.userId = m.userId ∧
        ∀ e, lookup m.userId = .error e → mp.displayName = m.mention)
      margs (resolveMentionMappings lookup margs).fst ∧
    ((resolveMentionMappings lookup margs).fst).length = margs.length ∧
    (∀ m ∈ margs, ∀ e, lookup m.userId = .error e →
      ("Could not resolve user " ++ m.userId ++
        ", using mention text as display name")
        ∈ (resolveMentionMappings lookup margs).snd) ∧
    (∀ (markdownToHtml : List Char → List Char) (args : SendMessageArgs),
      args.mentions = some margs →
      (sendChatMessagePayload markdownToHtml lookup args).snd =
        (resolveMentionMappings lookup margs).snd) := by
  refine ⟨?_, resolveMentionMappings_length lookup margs, ?_, ?_⟩
  · induction margs with
    | nil => exact List.Forall₂.nil
    | cons m rest ih =>
      refine List.Forall₂.cons ?_ ih
      unfold resolveMentionMapping
      cases hl : lookup m.userId with
      | ok dn =>
        refine ⟨rfl, rfl, ?_⟩
        intro e he
        exact absurd he (by simp)
      | error e => exact ⟨rfl, rfl, fun _ _ => rfl⟩
  · induction margs with
    | nil => intro m hm; cases hm
    | cons m0 rest ih =>
      intro m hm e he
      rcases List.mem_cons.mp hm with rfl | hmem
      · unfold resolveMentionMappings
        simp only
        rw [show resolveMentionMapping lookup m
            = ({ mention := m.mention, userId := m.userId,
                 displayName := m.mention },
               some ("Could not resolve user " ++ m.userId ++
                 ", using mention text as display name")) from by
          unfold resolveMentionMapping; rw [he]]
        simp
      · unfold resolveMentionMappings
        simp only [List.mem_append]
        exact Or.inr (ih m hmem e he)
  · intro markdownToHtml args hargs
    simp [sendChatMessagePayload, hargs]

/-- C10 witness: with a lookup that always fails, a two-entry mentions list
resolves to two fallback mappings. -/
theorem C10_witness :
    List.Forall₂ (fun (m : MentionArg) (mp : MentionMapping) =>
        mp.mention = m.mention ∧ mp.userId = m.userId ∧
        ∀ e : Unit, (fun _ : String => (Except.error () : Except Unit (Option String))) m.userId = .error e →
          mp.displayName = m.mention)
      [⟨"alice", "uA"⟩, ⟨"bob", "uB"⟩]
      (resolveMentionMappings (fun _ => .error ())
        [⟨"alice", "uA"⟩, ⟨"bob", "uB"⟩]).fst :=
  (C10_lookup_failure_falls_back (fun _ => .error ())
    [⟨"alice", "uA"⟩, ⟨"bob", "uB"⟩]).1

/-! ## Separator repair (C3) -/

/-- No match of the separator-repair pattern starts inside the first
`pre.length` positions of `pre ++ cont`. -/
def adjStartFree (pre cont : List Char) : Prop :=
  ∀ i, i < pre.length → matchAdj ((pre ++ cont).drop i) = none

instance (pre cont : List Char) : Decidable (adjStartFree pre cont) :=
  inferInstanceAs (Decidable (∀ i, i < pre.length →
    matchAdj ((pre ++ cont).drop i) = none))

theorem fixAdjacentAt_cons_none {c : Char} {cs : List Char}
    (h : matchAdj (c :: cs) = none) :
    fixAdjacentAt (c :: cs) = c :: fixAdjacentAt cs := by
  unfold fixAdjacentAt
  simp only [List.length_cons, fixAdjacentAtF, h]

theorem fixAdjacentAt_head (w : Char) (rest : List Char)
    (hw : isJsSpace w = true) :
    fixAdjacentAt (adjPat ++ w :: rest)
      = "</at> <at".data ++ w :: fixAdjacentAt rest := by
  have hm := matchAdj_of_shape w rest hw
  have hsh : adjPat ++ w :: rest
      = '<' :: ("/at><at".data ++ w :: rest) := by
    rw [adjPat_eq]
    rfl
  have hlen : (adjPat ++ w :: rest).length = (8 + rest.length) + 1 := by
    simp [adjPat_eq]
    omega
  unfold fixAdjacentAt
  rw [hlen]
  rw [hsh]
  rw [hsh] at hm
  simp only [fixAdjacentAtF, hm]
  rw [fixAdjacentAtF_congr (8 + rest.length) rest.length rest (by omega)
    (by omega)]

theorem fixAdjacentAt_append_free :
    ∀ pre cont : List Char, adjStartFree pre cont →
      fixAdjacentAt (pre ++ cont) = pre ++ fixAdjacentAt cont := by
  intro pre
  induction pre with
  | nil => intro cont _; simp
  | cons c pre ih =>
    intro cont h
    have h0 : matchAdj (c :: (pre ++ cont)) = none := by
      have := h 0 (by simp)
      simpa using this
    have hrest : adjStartFree pre cont := by
      intro i hi
      have := h (i + 1) (by simp only [List.length_cons]; omega)
      simpa using this
    have : fixAdjacentAt (c :: (pre ++ cont))
        = c :: fixAdjacentAt (pre ++ cont) := fixAdjacentAt_cons_none h0
    simp only [List.cons_append]
    rw [this, ih cont hrest]

/-- C3: the separator-repair step runs inside `htmlToMarkdown` on every
non-degenerate input whether or not mentions were supplied, and it inserts
exactly one literal space wherever a mention span's closing tag is
immediately followed by a mention span's opening tag (`<at` plus
whitespace), leaving everything else unchanged. -/
theorem C3_adjacent_mention_space_insertion
    (turndown : List Char → List Char) (html : List Char)
    (mentions : Option (List ChatMessageMention)) (pre post : List Char)
    (w : Char) (hw : isJsSpace w = true)
    (hfree : adjStartFree pre (adjPat ++ w :: post)) :
    (jsTrim html ≠ [] → htmlToMarkdown turndown html mentions =
      jsTrim ((turndown (fixAttachments (fixAdjacentAt
        (preMerge html mentions)))).map nbspToSpace)) ∧
    fixAdjacentAt (pre ++ (adjPat ++ w :: post))
      = pre ++ ("</at> <at".data ++ w :: fixAdjacentAt post) := by
  constructor
  · intro h
    simp [htmlToMarkdown, h]
  · rw [fixAdjacentAt_append_free pre (adjPat ++ w :: post) hfree,
      fixAdjacentAt_head w post hw]

/-- C3 witness: the concrete zero-separator pair from the repository's own
test (`…Leite</at><at id="3">Bruno…`) gets a single space inserted. -/
theorem C3_witness :
    isJsSpace ' ' = true ∧
    adjStartFree "<p><at id=\"2\">Leite".data
      (adjPat ++ ' ' :: "id=\"3\">Bruno</at></p>".data) ∧
    fixAdjacentAt ("<p><at id=\"2\">Leite".data ++
        (adjPat ++ ' ' :: "id=\"3\">Bruno</at></p>".data))
      = "<p><at id=\"2\">Leite".data ++ ("</at> <at".data ++ ' ' ::
          fixAdjacentAt "id=\"3\">Bruno</at></p>".data) :=
  ⟨by decide, by decide,
    (C3_adjacent_mention_space_insertion (fun s => s) [] none
      "<p><at id=\"2\">Leite".data "id=\"3\">Bruno</at></p>".data ' '
      (by decide) (by decide)).2⟩

/-! ## Attachment-placeholder rewriting (C5) -/

theorem lowerEq_self (c : Char) : lowerEq c c = true := by
  simp [lowerEq]

theorem iStrip_append : ∀ p r : List Char, iStrip p (p ++ r) = some r := by
  intro p
  induction p with
  | nil => intro r; rfl
  | cons a ps ih => intro r; simp [iStrip, lowerEq_self, ih]

theorem takeWhile_append_allP {p : Char → Bool} :
    ∀ l r : List Char, (∀ c ∈ l, p c = true) →
      (l ++ r).takeWhile p = l ++ r.takeWhile p := by
  intro l
  induction l with
  | nil => intro r _; rfl
  | cons a as ih =>
    intro r h
    have ha : p a = true := h a (by simp)
    simp only [List.cons_append, List.takeWhile_cons_of_pos ha]
    rw [ih r (fun c hc => h c (by simp [hc]))]

theorem dropWhile_append_allP {p : Char → Bool} :
    ∀ l r : List Char, (∀ c ∈ l, p c = true) →
      (l ++ r).dropWhile p = r.dropWhile p := by
  intro l
  induction l with
  | nil => intro r _; rfl
  | cons a as ih =>
    intro r h
    have ha : p a = true := h a (by simp)
    simp only [List.cons_append, List.dropWhile_cons_of_pos ha]
    exact ih r (fun c hc => h c (by simp [hc]))

/-- The attachment element with an explicit (possibly empty) id attribute. -/
def attachElemId (idc : List Char) : List Char :=
  "<attachment id=\"".data ++ idc ++ "\"></attachment>".data

/-- The id-less attachment element. -/
def attachElemNoId : List Char := "<attachment></attachment>".data

theorem matchAttachId_idshape (idc tail : List Char)
    (hq : ∀ c ∈ idc, (c != '"') = true) :
    matchAttachId (" id=\"".data ++ (idc ++ ('"' :: tail)))
      = some (idc, tail) := by
  have hshape : (" id=\"".data ++ (idc ++ ('"' :: tail)))
      = ' ' :: ('i' :: 'd' :: '=' :: '"' :: (idc ++ ('"' :: tail))) := rfl
  have htw : ((' ' :: ('i' :: 'd' :: '=' :: '"' ::
      (idc ++ ('"' :: tail))))).takeWhile isJsSpace = [' '] := by
    rw [List.takeWhile_cons_of_pos (by decide),
      List.takeWhile_cons_of_neg (by decide)]
  have hdw : ((' ' :: ('i' :: 'd' :: '=' :: '"' ::
      (idc ++ ('"' :: tail))))).dropWhile isJsSpace
      = 'i' :: 'd' :: '=' :: '"' :: (idc ++ ('"' :: tail)) := by
    rw [List.dropWhile_cons_of_pos (by decide),
      List.dropWhile_cons_of_neg (by decide)]
  have hstrip : iStrip "id=\"".data
      ('i' :: 'd' :: '=' :: '"' :: (idc ++ ('"' :: tail)))
      = some (idc ++ ('"' :: tail)) := by
    rw [show ('i' :: 'd' :: '=' :: '"' :: (idc ++ ('"' :: tail)))
        = "id=\"".data ++ (idc ++ ('"' :: tail)) from rfl]
    exact iStrip_append _ _
  have hdw2 : (idc ++ ('"' :: tail)).dropWhile (fun c => c != '"')
      = '"' :: tail := by
    rw [dropWhile_append_allP idc _ hq,
      List.dropWhile_cons_of_neg (by decide)]
  have htw2 : (idc ++ ('"' :: tail)).takeWhile (fun c => c != '"') = idc := by
    rw [takeWhile_append_allP idc _ hq,
      List.takeWhile_cons_of_neg (by decide), List.append_nil]
  unfold matchAttachId
  rw [hshape, htw, hdw, hstrip]
  simp only [hdw2, htw2, List.isEmpty_cons, if_neg, Bool.false_eq_true,
    not_false_eq_true, if_pos, if_true]

theorem matchAttach_elemId (idc post : List Char)
    (hq : ∀ c ∈ idc, (c != '"') = true) :
    matchAttach (attachElemId idc ++ post) = some (some idc, post) := by
  have e1 : attachElemId idc ++ post
      = "<attachment".data ++ (" id=\"".data ++
          (idc ++ ('"' :: ("></attachment>".data ++ post)))) := by
    unfold attachElemId
    simp only [List.append_assoc]
    rfl
  rw [e1]
  unfold matchAttach
  rw [iStrip_append]
  simp only [matchAttachId_idshape idc ("></attachment>".data ++ post) hq]
  rw [iStrip_append]

theorem matchAttach_elemNoId (post : List Char) :
    matchAttach (attachElemNoId ++ post) = some (none, post) := by
  have e1 : attachElemNoId ++ post
      = "<attachment".data ++ ("></attachment>".data ++ post) := rfl
  rw [e1]
  unfold matchAttach
  rw [iStrip_append]
  have hid : matchAttachId ("></attachment>".data ++ post) = none := by
    unfold matchAttachId
    rw [show ("></attachment>".data ++ post)
        = '>' :: ("</attachment>".data ++ post) from rfl]
    rw [List.takeWhile_cons_of_neg (by decide)]
    rfl
  simp only [hid]
  rw [iStrip_append]

theorem fixAttachments_cons_some {c : Char} {cs : List Char}
    {idc : Option (List Char)} {rest : List Char}
    (h : matchAttach (c :: cs) = some (idc, rest)) :
    fixAttachments (c :: cs) = attachReplacement idc ++ fixAttachments rest := by
  unfold fixAttachments
  simp only [List.length_cons, fixAttachmentsF, h]
  have hl := matchAttach_rest_lt h
  simp only [List.length_cons] at hl
  rw [fixAttachmentsF_congr cs.length rest.length rest (by omega) (by omega)]

theorem fixAttachments_cons_none {c : Char} {cs : List Char}
    (h : matchAttach (c :: cs) = none) :
    fixAttachments (c :: cs) = c :: fixAttachments cs := by
  unfold fixAttachments
  simp only [List.length_cons, fixAttachmentsF, h]

/-- No match of the attachment regex starts inside the first `pre.length`
positions of `pre ++ cont`. -/
def attachStartFree (pre cont : List Char) : Prop :=
  ∀ i, i < pre.length → matchAttach ((pre ++ cont).drop i) = none

instance (pre cont : List Char) : Decidable (attachStartFree pre cont) :=
  inferInstanceAs (Decidable (∀ i, i < pre.length →
    matchAttach ((pre ++ cont).drop i) = none))

theorem fixAttachments_append_free :
    ∀ pre cont : List Char, attachStartFree pre cont →
      fixAttachments (pre ++ cont) = pre ++ fixAttachments cont := by
  intro pre
  induction pre with
  | nil => intro cont _; simp
  | cons c pre ih =>
    intro cont h
    have h0 : matchAttach (c :: (pre ++ cont)) = none := by
      have := h 0 (by simp)
      simpa using this
    have hrest : attachStartFree pre cont := by
      intro i hi
      have := h (i + 1) (by simp only [List.length_cons]; omega)
      simpa using this
    simp only [List.cons_append]
    rw [fixAttachments_cons_none h0, ih cont hrest]

theorem fixAttachments_some {s : List Char} {idc : Option (List Char)}
    {rest : List Char} (hs : s ≠ []) (h : matchAttach s = some (idc, rest)) :
    fixAttachments s = attachReplacement idc ++ fixAttachments rest := by
  cases s with
  | nil => exact absurd rfl hs
  | cons c cs => exact fixAttachments_cons_some h

/-- C5 counterexample: for the attachment element whose id attribute is the
empty string — an instance of the claimed form `<attachment
id="X"></attachment>` with `X = ""` — the rewrite produces the id-less
marker `{attachment}`, not the claimed `{attachment:X}`: no `{attachment:`
text occurs in the rewritten HTML, and the attachment rule passes span
content through unchanged, so the marker `{attachment:}` can never reach the
Markdown. -/
theorem C5_counterexample :
    fixAttachments "<attachment id=\"\"></attachment>".data
      = "<span data-attachment>\x7battachment\x7d</span>".data ∧
    ¬ ("\x7battachment:".data <:+:
        fixAttachments "<attachment id=\"\"></attachment>".data) ∧
    renderNode (.elem "span".data [("data-attachment".data, none)]
        [.text "\x7battachment\x7d".data]) = "\x7battachment\x7d".data := by
  exact ⟨by decide, by decide, by decide⟩

/-- C5 (amended): an attachment element with a nonempty id `X` is rewritten
in place to a span whose text contains the literal marker `{attachment:X}`;
an id-less attachment element is rewritten to the `{attachment}` marker
span; the surrounding text (such as a preceding paragraph) is preserved
unchanged, and the attachment rule passes the marker text through to the
Markdown unchanged. -/
theorem C5_attachment_markers (pre post pre2 post2 idc : List Char)
    (hq : ∀ c ∈ idc, (c != '"') = true) (hne : idc ≠ [])
    (hfree : attachStartFree pre (attachElemId idc ++ post))
    (hfree2 : attachStartFree pre2 (attachElemNoId ++ post2)) :
    fixAttachments (pre ++ (attachElemId idc ++ post))
      = pre ++ (attachSpan idc ++ fixAttachments post) ∧
    (("\x7battachment:".data ++ idc ++ "\x7d".data) <:+: attachSpan idc) ∧
    fixAttachments (pre2 ++ (attachElemNoId ++ post2))
      = pre2 ++ (attachSpanNoId ++ fixAttachments post2) ∧
    ("\x7battachment\x7d".data <:+: attachSpanNoId) ∧
    (∀ (attrs : List (List Char × Option (List Char))) (content : List Char),
      jsTrim content ≠ "systemEventMessage/".data →
      renderNode (.elem "span".data (("data-attachment".data, none) :: attrs)
        [.text content]) = content) := by
  refine ⟨?_, ?_, ?_, by decide, ?_⟩
  · rw [fixAttachments_append_free pre _ hfree]
    have hne' : attachElemId idc ++ post ≠ [] := by
      intro hcontra
      have := congrArg List.length hcontra
      simp [attachElemId] at this
    rw [fixAttachments_some hne'
      (matchAttach_elemId idc post hq)]
    have : attachReplacement (some idc) = attachSpan idc := by
      show (if idc.isEmpty = true then attachSpanNoId else attachSpan idc)
        = attachSpan idc
      rw [if_neg (by simpa [List.isEmpty_iff] using hne)]
    rw [this]
  · refine ⟨"<span data-attachment=\"".data ++ idc ++ "\">".data,
      "</span>".data, ?_⟩
    unfold attachSpan
    have e1 : ("\">\x7battachment:".data : List Char)
        = "\">".data ++ "\x7battachment:".data := rfl
    have e2 : ("\x7d</span>".data : List Char)
        = "\x7d".data ++ "</span>".data := rfl
    rw [e1, e2]
    simp [List.append_assoc]
  · rw [fixAttachments_append_free pre2 _ hfree2]
    have hne' : attachElemNoId ++ post2 ≠ [] := by
      intro hcontra
      have := congrArg List.length hcontra
      simp [attachElemNoId] at this
    rw [fixAttachments_some hne' (matchAttach_elemNoId post2)]
    rfl
  · intro attrs content hc
    have hf1 : teamsSystemEventFilter (.elem "span".data
        (("data-attachment".data, none) :: attrs) [.text content]) = false := by
      unfold teamsSystemEventFilter
      rw [Bool.or_eq_false_iff]
      constructor
      · rfl
      · rw [show textContent (.elem "span".data
            (("data-attachment".data, none) :: attrs) [.text content])
            = content ++ [] from rfl]
        rw [List.append_nil]
        exact beq_eq_false_iff_ne.mpr hc
    have hf2 : teamsAttachmentFilter (.elem "span".data
        (("data-attachment".data, none) :: attrs) [.text content]) = true := by
      unfold teamsAttachmentFilter
      rw [Bool.and_eq_true]
      constructor
      · rfl
      · unfold hasAttr
        simp
    unfold renderNode
    rw [if_neg (by simp [hf1]), if_pos hf2]
    show content ++ [] = content
    exact List.append_nil content

/-- C5 witness: the repository's own test example, with every hypothesis
discharged at the concrete input. -/
theorem C5_witness :
    (∀ c ∈ "abc123".data, (c != '"') = true) ∧
    ("abc123".data ≠ []) ∧
    attachStartFree "<p>See the file</p>".data
      (attachElemId "abc123".data ++ []) ∧
    fixAttachments ("<p>See the file</p>".data ++
        (attachElemId "abc123".data ++ []))
      = "<p>See the file</p>".data ++
        (attachSpan "abc123".data ++ fixAttachments []) :=
  ⟨by decide, by decide, by decide,
    (C5_attachment_markers "<p>See the file</p>".data [] [] []
      "abc123".data (by decide) (by decide) (by decide) (by decide)).1⟩

/-! ## The grouping loop partitions the tags into maximal merge runs (C1, C2) -/

/-- Between two neighbouring groups the merge condition fails: the last tag
of the left group and the first tag of the right group are not
nbsp-adjacent same-user spans. -/
def boundaryBlocked (html : List Char) (g1 g2 : List AtTag) : Prop :=
  ∀ a ∈ g1.getLast?, ∀ b ∈ g2.head?, sameUserAdjacent html a b = false

theorem groupTagsAux_spec (html : List Char) :
    ∀ (ts cur : List AtTag) (prev : AtTag),
      cur.head? = some prev →
      List.Chain' (fun a b => sameUserAdjacent html a b = true) cur.reverse →
      (groupTagsAux html cur prev ts).join = cur.reverse ++ ts ∧
      (∀ g ∈ groupTagsAux html cur prev ts, g ≠ [] ∧
        List.Chain' (fun a b => sameUserAdjacent html a b = true) g) ∧
      List.Chain' (boundaryBlocked html) (groupTagsAux html cur prev ts) ∧
      ∃ g gs, groupTagsAux html cur prev ts = g :: gs ∧
        g.head? = cur.reverse.head? := by
  intro ts
  induction ts with
  | nil =>
    intro cur prev hhead hchain
    have hcur : cur ≠ [] := by
      intro hc
      rw [hc] at hhead
      cases hhead
    refine ⟨by simp [groupTagsAux], ?_, ?_, ⟨cur.reverse, [], rfl, rfl⟩⟩
    · intro g hg
      simp only [groupTagsAux, List.mem_cons, List.not_mem_nil, or_false] at hg
      subst hg
      exact ⟨by simpa using hcur, hchain⟩
    · simp only [groupTagsAux]
      exact List.chain'_singleton _
  | cons c rest ih =>
    intro cur prev hhead hchain
    have hcur : cur ≠ [] := by
      intro hc
      rw [hc] at hhead
      cases hhead
    by_cases hR : sameUserAdjacent html prev c = true
    · have hstep : groupTagsAux html cur prev (c :: rest)
          = groupTagsAux html (c :: cur) c rest := by
        simp [groupTagsAux, hR]
      have hchain' : List.Chain'
          (fun a b => sameUserAdjacent html a b = true) (c :: cur).reverse := by
        rw [List.reverse_cons]
        rw [List.chain'_append]
        refine ⟨hchain, List.chain'_singleton _, ?_⟩
        intro x hx y hy
        rw [List.getLast?_reverse, hhead] at hx
        simp only [Option.mem_def, Option.some.injEq] at hx
        simp only [List.head?_cons, Option.mem_def, Option.some.injEq] at hy
        subst hx
        subst hy
        exact hR
      obtain ⟨hjoin, hgroups, hbnd, g, gs, hout, hheadg⟩ :=
        ih (c :: cur) c rfl hchain'
      refine ⟨?_, ?_, ?_, ?_⟩
      · rw [hstep, hjoin, List.reverse_cons, List.append_assoc]
        rfl
      · rw [hstep]
        exact hgroups
      · rw [hstep]
        exact hbnd
      · refine ⟨g, gs, by rw [hstep]; exact hout, ?_⟩
        rw [hheadg, List.reverse_cons]
        cases hcv : cur.reverse with
        | nil => exact absurd (by simpa using hcv) hcur
        | cons d ds => simp [hcv]
    · have hstep : groupTagsAux html cur prev (c :: rest)
          = cur.reverse :: groupTagsAux html [c] c rest := by
        simp [groupTagsAux, hR]
      obtain ⟨hjoin', hgroups', hbnd', g', gs', hout', hheadg'⟩ :=
        ih [c] c rfl (by simp)
      refine ⟨?_, ?_, ?_, ?_⟩
      · rw [hstep]
        simp [hjoin']
      · rw [hstep]
        intro g hg
        rcases List.mem_cons.mp hg with rfl | hg'
        · exact ⟨by simpa using hcur, hchain⟩
        · exact hgroups' g hg'
      · rw [hstep, hout']
        rw [List.chain'_cons]
        constructor
        · intro a ha b hb
          rw [List.getLast?_reverse, hhead] at ha
          simp only [Option.mem_def, Option.some.injEq] at ha
          rw [hheadg'] at hb
          simp only [List.reverse_cons, List.reverse_nil, List.nil_append,
            List.head?_cons, Option.mem_def, Option.some.injEq] at hb
          subst ha
          subst hb
          simpa using hR
        · rw [← hout']
          exact hbnd'
      · exact ⟨cur.reverse, groupTagsAux html [c] c rest, hstep, rfl⟩

theorem rebuildGroups_short (html : List Char) :
    ∀ (gs : List (List AtTag)) (lastEnd : Nat),
      (∀ g ∈ gs, g.length ≤ 1) →
      rebuildGroups html gs lastEnd = html.drop lastEnd := by
  intro gs
  induction gs with
  | nil => intro lastEnd _; rfl
  | cons g rest ih =>
    intro lastEnd h
    match g with
    | [] => exact ih lastEnd (fun g' hg' => h g' (by simp [hg']))
    | [_] => exact ih lastEnd (fun g' hg' => h g' (by simp [hg']))
    | t :: t2 :: ts =>
      have := h (t :: t2 :: ts) (by simp)
      simp at this

/-- C1: the merge pass replaces exactly the maximal runs of two or more
consecutive `<at>` spans that are pairwise separated by exactly `&nbsp;` and
resolve to the same present user id.  The grouping loop partitions the
scanned tags, order preserved, into groups whose consecutive members satisfy
the merge condition and whose boundaries violate it (maximality); the
rebuild replaces each group of two or more by a single span that carries the
first member's id and the space-joined member texts, skips singleton groups,
and `mergeConsecutiveMentions` is exactly this rebuild whenever the
descriptor list is nonempty and at least two spans were scanned. -/
theorem C1_merge_replaces_maximal_runs (html : List Char)
    (ms : List ChatMessageMention) :
    (groupTags html (scanAtTags (atIdToUserId ms) 0 html)).join
      = scanAtTags (atIdToUserId ms) 0 html ∧
    (∀ g ∈ groupTags html (scanAtTags (atIdToUserId ms) 0 html), g ≠ [] ∧
      List.Chain' (fun a b => sameUserAdjacent html a b = true) g) ∧
    List.Chain' (boundaryBlocked html)
      (groupTags html (scanAtTags (atIdToUserId ms) 0 html)) ∧
    (∀ (lastEnd : Nat) (t t2 : AtTag) (ts : List AtTag)
        (rest : List (List AtTag)),
      rebuildGroups html ((t :: t2 :: ts) :: rest) lastEnd
        = (html.drop lastEnd).take (t.start - lastEnd)
          ++ mergedSpanChars t (t2 :: ts)
          ++ rebuildGroups html rest (groupLast t2 ts).stop) ∧
    (∀ (lastEnd : Nat) (t : AtTag) (rest : List (List AtTag)),
      rebuildGroups html ([t] :: rest) lastEnd
        = rebuildGroups html rest lastEnd) ∧
    (∀ (t : AtTag) (ts : List AtTag),
      mergedSpanChars t ts = "<at id=\"".data ++ t.id.data ++ "\">".data
        ++ (String.intercalate " " ((t :: ts).map AtTag.text)).data
        ++ "</at>".data) ∧
    (ms ≠ [] → 2 ≤ (scanAtTags (atIdToUserId ms) 0 html).length →
      mergeConsecutiveMentions html ms
        = rebuildGroups html
            (groupTags html (scanAtTags (atIdToUserId ms) 0 html)) 0) := by
  have hmain : (groupTags html (scanAtTags (atIdToUserId ms) 0 html)).join
        = scanAtTags (atIdToUserId ms) 0 html ∧
      (∀ g ∈ groupTags html (scanAtTags (atIdToUserId ms) 0 html), g ≠ [] ∧
        List.Chain' (fun a b => sameUserAdjacent html a b = true) g) ∧
      List.Chain' (boundaryBlocked html)
        (groupTags html (scanAtTags (atIdToUserId ms) 0 html)) := by
    cases htags : scanAtTags (atIdToUserId ms) 0 html with
    | nil => exact ⟨rfl, by simp [groupTags], by simp [groupTags]⟩
    | cons t rest =>
      obtain ⟨hjoin, hgroups, hbnd, -⟩ :=
        groupTagsAux_spec html rest [t] t rfl (by simp)
      exact ⟨by simpa using hjoin, hgroups, hbnd⟩
  refine ⟨hmain.1, hmain.2.1, hmain.2.2, fun _ _ _ _ _ => rfl,
    fun _ _ _ => rfl, fun _ _ => rfl, ?_⟩
  intro hms hlen
  unfold mergeConsecutiveMentions
  rw [if_neg (by simpa [List.isEmpty_iff] using hms),
    if_neg (by omega)]

/-- C1 witness: the repository's own merge test input, with both hypotheses
of the final conjunct discharged concretely. -/
theorem C1_witness :
    ([(⟨some 0, some "Brunno", some ⟨some ⟨some "user-A"⟩⟩⟩ :
        ChatMessageMention),
      ⟨some 1, some "Joyran", some ⟨some ⟨some "user-A"⟩⟩⟩] ≠ []) ∧
    2 ≤ (scanAtTags (atIdToUserId
        [⟨some 0, some "Brunno", some ⟨some ⟨some "user-A"⟩⟩⟩,
         ⟨some 1, some "Joyran", some ⟨some ⟨some "user-A"⟩⟩⟩]) 0
      "<p><at id=\"0\">Brunno</at>&nbsp;<at id=\"1\">Joyran</at>&nbsp;hello</p>".data).length ∧
    mergeConsecutiveMentions
        "<p><at id=\"0\">Brunno</at>&nbsp;<at id=\"1\">Joyran</at>&nbsp;hello</p>".data
        [⟨some 0, some "Brunno", some ⟨some ⟨some "user-A"⟩⟩⟩,
         ⟨some 1, some "Joyran", some ⟨some ⟨some "user-A"⟩⟩⟩]
      = rebuildGroups
          "<p><at id=\"0\">Brunno</at>&nbsp;<at id=\"1\">Joyran</at>&nbsp;hello</p>".data
          (groupTags
            "<p><at id=\"0\">Brunno</at>&nbsp;<at id=\"1\">Joyran</at>&nbsp;hello</p>".data
            (scanAtTags (atIdToUserId
              [⟨some 0, some "Brunno", some ⟨some ⟨some "user-A"⟩⟩⟩,
               ⟨some 1, some "Joyran", some ⟨some ⟨some "user-A"⟩⟩⟩]) 0
              "<p><at id=\"0\">Brunno</at>&nbsp;<at id=\"1\">Joyran</at>&nbsp;hello</p>".data))
          0 :=
  ⟨by decide, by decide,
    (C1_merge_replaces_maximal_runs
        "<p><at id=\"0\">Brunno</at>&nbsp;<at id=\"1\">Joyran</at>&nbsp;hello</p>".data
        [⟨some 0, some "Brunno", some ⟨some ⟨some "user-A"⟩⟩⟩,
         ⟨some 1, some "Joyran", some ⟨some ⟨some "user-A"⟩⟩⟩]).2.2.2.2.2.2
      (by decide) (by decide)⟩

/-- C2: two adjacent spans are never merged unless the text between them is
exactly `&nbsp;` and both resolve to the same present (nonempty) user id:
the merge condition is equivalent to that conjunction, any two spans that
are consecutive inside one group satisfy it, and when every group is a
singleton (no pair merges) the pass returns the HTML unchanged. -/
theorem C2_no_merge_without_exact_adjacency (html : List Char)
    (ms : List ChatMessageMention) :
    (∀ prev curr : AtTag, sameUserAdjacent html prev curr = true ↔
      ((html.drop prev.stop).take (curr.start - prev.stop) = "&nbsp;".data ∧
        ∃ u, u ≠ "" ∧ prev.userId = some u ∧ curr.userId = some u)) ∧
    (∀ g ∈ groupTags html (scanAtTags (atIdToUserId ms) 0 html),
      ∀ l1 (a b : AtTag) l2, g = l1 ++ a :: b :: l2 →
        sameUserAdjacent html a b = true) ∧
    ((∀ g ∈ groupTags html (scanAtTags (atIdToUserId ms) 0 html),
        g.length ≤ 1) →
      mergeConsecutiveMentions html ms = html) := by
  refine ⟨?_, ?_, ?_⟩
  · intro prev curr
    cases hp : prev.userId with
    | none => simp [sameUserAdjacent, hp]
    | some pu =>
      cases hc : curr.userId with
      | none => simp [sameUserAdjacent, hp, hc]
      | some cu =>
        simp only [sameUserAdjacent, hp, hc, Bool.and_eq_true, beq_iff_eq,
          Bool.not_eq_true', beq_eq_false_iff_ne, Option.some.injEq]
        constructor
        · rintro ⟨h1, ⟨h2, h3⟩, h4⟩
          exact ⟨h1, pu, h2, rfl, h4.symm⟩
        · rintro ⟨h1, u, hu, rfl, hcu⟩
          exact ⟨h1, ⟨hu, by rw [hcu]; exact hu⟩, hcu.symm⟩
  · intro g hg l1 a b l2 heq
    have hchain : List.Chain' (fun x y => sameUserAdjacent html x y = true) g := by
      cases htags : scanAtTags (atIdToUserId ms) 0 html with
      | nil =>
        rw [htags] at hg
        simp [groupTags] at hg
      | cons t rest =>
        rw [htags] at hg
        obtain ⟨-, hgroups, -, -⟩ :=
          groupTagsAux_spec html rest [t] t rfl (by simp)
        exact (hgroups g hg).2
    rw [heq] at hchain
    have := (List.chain'_append.mp hchain).2.1
    exact (List.chain'_cons.mp this).1
  · intro hshort
    unfold mergeConsecutiveMentions
    split
    · rfl
    · show (if (scanAtTags (atIdToUserId ms) 0 html).length < 2 then html
        else rebuildGroups html
          (groupTags html (scanAtTags (atIdToUserId ms) 0 html)) 0) = html
      split
      · rfl
      · rw [rebuildGroups_short html _ 0 hshort]
        exact List.drop_zero html

/-- C2 witness: the repository's different-users test input: every group is
a singleton and the merge pass leaves the HTML unchanged. -/
theorem C2_witness :
    (∀ g ∈ groupTags "<p><at id=\"0\">Alice</at>&nbsp;<at id=\"1\">Bob</at></p>".data
        (scanAtTags (atIdToUserId
          [⟨some 0, some "Alice", some ⟨some ⟨some "user-A"⟩⟩⟩,
           ⟨some 1, some "Bob", some ⟨some ⟨some "user-B"⟩⟩⟩]) 0
          "<p><at id=\"0\">Alice</at>&nbsp;<at id=\"1\">Bob</at></p>".data),
      g.length ≤ 1) ∧
    mergeConsecutiveMentions
        "<p><at id=\"0\">Alice</at>&nbsp;<at id=\"1\">Bob</at></p>".data
        [⟨some 0, some "Alice", some ⟨some ⟨some "user-A"⟩⟩⟩,
         ⟨some 1, some "Bob", some ⟨some ⟨some "user-B"⟩⟩⟩]
      = "<p><at id=\"0\">Alice</at>&nbsp;<at id=\"1\">Bob</at></p>".data :=
  ⟨by decide,
    (C2_no_merge_without_exact_adjacency
        "<p><at id=\"0\">Alice</at>&nbsp;<at id=\"1\">Bob</at></p>".data
        [⟨some 0, some "Alice", some ⟨some ⟨some "user-A"⟩⟩⟩,
         ⟨some 1, some "Bob", some ⟨some ⟨some "user-B"⟩⟩⟩]).2.2 (by decide)⟩

end TeamsMcp
